import Mathlib

/-!
A shallow embedding of `twosheds/completer.py` — the `Completer` class of the
twosheds shell's completion engine — together with proofs about it.

Conventions of the embedding:
  * Python strings are `String`, manipulated through their character lists.
  * `os.listdir`, `os.path.isdir` and `os.environ` are read from an explicit
    ambient state `FS`; `listdir` returning `none` models an `OSError`.
  * A Python function that can raise is modelled in `Except Unit`;
    `Except.error ()` means an exception escapes the modelled call.
  * Generators are materialized as the lists they yield.  An exception
    raised while a lazy generator is consumed is attributed to the point of
    consumption, exactly as in the source.
  * `re.match` is modelled over the subset of regular-expression syntax the
    engine's exclude patterns use (literals, backslash escapes, `.`, `*`);
    a pattern outside the subset, or an invalid one such as `"("`, fails to
    compile, which models `re.error`.
  * The `transform` module the completer imports is not among the source
    files; the pipeline is modelled from the design document (see
    `Transform` below).
-/

set_option autoImplicit false

namespace Twosheds

/-- Character-list version of Python `a.startswith(b)`: is the first list a
prefix of the second? -/
def listIsPfx : List Char → List Char → Bool
  | [], _ => true
  | _ :: _, [] => false
  | a :: as, b :: bs => a == b && listIsPfx as bs

/-- Python `s.startswith(p)`. -/
def strStartsWith (s p : String) : Bool := listIsPfx p.data s.data

/-- Character-list version of Python `needle in hay`: contiguous substring
test. -/
def listContainsSub : List Char → List Char → Bool
  | n, [] => n.isEmpty
  | n, h :: t => listIsPfx n (h :: t) || listContainsSub n t

/-- Python `needle in hay` on strings. -/
def strContains (needle hay : String) : Bool := listContainsSub needle.data hay.data

/-- Python `s.endswith(p)`. -/
def strEndsWith (s p : String) : Bool := listIsPfx p.data.reverse s.data.reverse

/-- Python `os.path.split` (posix semantics): split after the last slash;
the head keeps its trailing slashes only when it consists of slashes. -/
def osPathSplit (p : String) : String × String :=
  let r := p.data.reverse
  let tail := (r.takeWhile (fun c => c != '/')).reverse
  let head0 := (r.dropWhile (fun c => c != '/')).reverse
  let head :=
    if head0.isEmpty || head0.all (fun c => c == '/') then head0
    else (head0.reverse.dropWhile (fun c => c == '/')).reverse
  (String.mk head, String.mk tail)

/-- Python `os.path.join` (posix semantics) for two components. -/
def osPathJoin (a b : String) : String :=
  if strStartsWith b "/" then b
  else if a == "" || strEndsWith a "/" then a ++ b
  else a ++ "/" ++ b

/-- One atom of the regular-expression subset used by exclude patterns: a
literal character or `.` (any character). -/
inductive Atom where
  | lit (c : Char)
  | dot
deriving DecidableEq

/-- Does an atom match one character? -/
def atomMatch : Atom → Char → Bool
  | .lit c, x => c == x
  | .dot, _ => true

/-- A compiled pattern: a sequence of atoms, each optionally starred. -/
abbrev Pat := List (Atom × Bool)

/-- Match a starred atom: try the continuation `k` (the rest of the
pattern) after the star has consumed zero, one, two, … matching
characters. -/
def starMatch (a : Atom) (k : List Char → Bool) : List Char → Bool
  | [] => k []
  | x :: xs => k (x :: xs) || (atomMatch a x && starMatch a k xs)

/-- Does the pattern match some prefix of the characters?  This is the
semantics of Python `re.match`, which anchors at the start only. -/
def patMatch : Pat → List Char → Bool
  | [], _ => true
  | (a, false) :: ps, cs =>
    match cs with
    | [] => false
    | x :: xs => atomMatch a x && patMatch ps xs
  | (a, true) :: ps, cs => starMatch a (patMatch ps) cs

/-- Characters of regular-expression syntax that the modelled subset does not
support; a pattern containing one fails to compile. -/
def isMeta (c : Char) : Bool :=
  c == '(' || c == ')' || c == '[' || c == ']' || c == '+' ||
  c == '?' || c == '|' || c == '^' || c == '$'

/-- Compile a pattern string (as characters) into the subset: literal
characters, backslash escapes, `.`, and `*` applied to the preceding atom.
`none` models `re.error`, as raised for example by the unbalanced `"("`. -/
def compileChars : List Char → Option Pat
  | [] => some []
  | '*' :: _ => none
  | '\\' :: [] => none
  | '\\' :: c :: '*' :: rest => (compileChars rest).map (fun p => (Atom.lit c, true) :: p)
  | '\\' :: c :: rest => (compileChars rest).map (fun p => (Atom.lit c, false) :: p)
  | '.' :: '*' :: rest => (compileChars rest).map (fun p => (Atom.dot, true) :: p)
  | '.' :: rest => (compileChars rest).map (fun p => (Atom.dot, false) :: p)
  | c :: '*' :: rest =>
      if isMeta c then none else (compileChars rest).map (fun p => (Atom.lit c, true) :: p)
  | c :: rest =>
      if isMeta c then none else (compileChars rest).map (fun p => (Atom.lit c, false) :: p)

/-- Python `re.match(pattern, s)`: `none` when the pattern does not compile
(`re.error`), otherwise whether a prefix of `s` matches the pattern. -/
def reMatchStr (p s : String) : Option Bool :=
  (compileChars p.data).map (fun q => patMatch q s.data)

/-- Modelled from the spec: the `transform` module imported by the completer
is not among the repository's source files.  Per the design document a
transform is "an ordered pair of functions (forward, inverse) over
strings". -/
structure Transform where
  forward : String → String
  inverse : String → String

/-- Modelled from the spec: `transform(word, transforms, word=True)` maps the
word through the pipeline in order. -/
def transformForward (ts : List Transform) (s : String) : String :=
  ts.foldl (fun acc t => t.forward acc) s

/-- Modelled from the spec: `transform(match, transforms, word=True,
inverse=True)` applies the inverse functions in reverse traversal order. -/
def transformInverse (ts : List Transform) (s : String) : String :=
  ts.reverse.foldl (fun acc t => t.inverse acc) s

/-- The ambient state the completer reads: `os.listdir` (`none` models an
`OSError`), `os.path.isdir`, and the variable names of `os.environ`. -/
structure FS where
  listdir : String → Option (List String)
  isdir : String → Bool
  env : List String

/-- The configuration taken by `Completer.__init__`: the transform pipeline,
the `use_suffix` flag, `exclude_patterns` (regular-expression pattern
strings) and the extension generators. -/
structure Completer where
  transforms : List Transform
  use_suffix : Bool
  exclude_patterns : List String
  extensions : List (String → List String)

/-- `Completer._is_hidden_file`: `filename.startswith('.')`. -/
def isHiddenFile (filename : String) : Bool := strStartsWith filename "."

/-- `Completer._escape` character by character: `path.replace(" ", "\\ ")`
replaces each occurrence of the single character `' '`. -/
def escChars : List Char → List Char
  | [] => []
  | c :: cs => if c == ' ' then '\\' :: ' ' :: escChars cs else c :: escChars cs

/-- `Completer._escape`: escape any spaces in the path. -/
def escape (path : String) : String := String.mk (escChars path.data)

/-- `Completer.inflect`: append `/` to a directory and a space otherwise,
escaping the filename. -/
def inflect (fs : FS) (filename : String) : String :=
  let suffix := if fs.isdir filename then "/" else " "
  escape filename ++ suffix

/-- `Completer.gen_filename_completions`: the primary phase (prefix matches
for a non-empty word, non-hidden entries for an empty word) followed, when
the primary phase yielded nothing (`match_found` stayed false), by the
substring fallback over all entries. -/
def genFilenameCompletions (word : String) (filenames : List String) : List String :=
  let primary :=
    if word.isEmpty then filenames.filter (fun f => !(isHiddenFile f))
    else filenames.filter (fun f => strStartsWith f word)
  primary ++ (if primary.isEmpty then filenames.filter (fun f => strContains word f) else [])

/-- `Completer.gen_variable_completions`: for each environment name starting
with the word minus its leading dollar sign, yield `"$" + k`. -/
def genVariableCompletions (word : String) (env : List String) : List String :=
  let var := String.mk (word.data.drop 1)
  (env.filter (fun k => strStartsWith k var)).map (fun k => "$" ++ k)

/-- The directory `gen_matches` lists: `os.listdir(head or '.')`. -/
def listdirArg (word : String) : String :=
  let head := (osPathSplit word).1
  if head == "" then "." else head

/-- `Completer.gen_matches` materialized as the list its generator yields;
`Except.error ()` models an exception escaping from the generator (here the
unprotected `os.listdir` call, which precedes every yield). -/
def genMatches (C : Completer) (fs : FS) (word : String) : Except Unit (List String) :=
  let base : Except Unit (List String) :=
    if strStartsWith word "$" then
      Except.ok (genVariableCompletions word fs.env)
    else
      match fs.listdir (listdirArg word) with
      | none => Except.error ()
      | some filenames =>
        Except.ok ((genFilenameCompletions (osPathSplit word).2 filenames).map
          (fun m => osPathJoin (osPathSplit word).1 m))
  match base with
  | Except.error e => Except.error e
  | Except.ok ms => Except.ok (ms ++ C.extensions.foldr (fun g acc => g word ++ acc) [])

/-- The inner loop of `Completer.exclude_matches` for one candidate: scan
the patterns in order and `break` (exclude the candidate) at the first
match; `re.match` on a pattern that does not compile raises. -/
def matchAnyPattern (pats : List String) (m : String) : Except Unit Bool :=
  match pats with
  | [] => Except.ok false
  | p :: rest =>
    match reMatchStr p m with
    | none => Except.error ()
    | some true => Except.ok true
    | some false => matchAnyPattern rest m

/-- `Completer.exclude_matches` materialized: keep, in order, the candidates
matched by no pattern; an error raised by `re.match` propagates. -/
def excludeMatchesE (pats : List String) (ms : List String) : Except Unit (List String) :=
  match ms with
  | [] => Except.ok []
  | m :: rest =>
    match matchAnyPattern pats m with
    | Except.error e => Except.error e
    | Except.ok true => excludeMatchesE pats rest
    | Except.ok false =>
      match excludeMatchesE pats rest with
      | Except.error e => Except.error e
      | Except.ok l => Except.ok (m :: l)

/-- `Completer.get_matches`.  In the source the `try` block only constructs
the lazy `exclude_matches` generator, which cannot itself raise, so the
`return None` branch is unreachable; exceptions from generation and
exclusion surface when the sequence is consumed — the inflection list
comprehension or the final `list(matches)` — both outside the `try`, and
therefore propagate (`Except.error`). -/
def getMatches (C : Completer) (fs : FS) (word : String) :
    Except Unit (Option (List String)) :=
  match genMatches C fs word with
  | Except.error e => Except.error e
  | Except.ok ms =>
    match excludeMatchesE C.exclude_patterns ms with
    | Except.error e => Except.error e
    | Except.ok survivors =>
      Except.ok (some (if C.use_suffix then survivors.map (fun m => inflect fs m)
                       else survivors))

/-- `Completer.complete`: transform the word forward, index the match list
with `state`, transform the selected match back; an `IndexError` (state out
of range) is caught and yields `None`.  Indexing the `None` of
`get_matches`' dead branch would raise an uncaught `TypeError`, modelled as
an error. -/
def complete (C : Completer) (fs : FS) (word : String) (state : Nat) :
    Except Unit (Option String) :=
  let w := transformForward C.transforms word
  match getMatches C fs w with
  | Except.error e => Except.error e
  | Except.ok none => Except.error ()
  | Except.ok (some ms) =>
    match ms.get? state with
    | some m => Except.ok (some (transformInverse C.transforms m))
    | none => Except.ok none

/-! ## General lemmas about the embedded definitions -/

/-- The empty needle is a substring of any haystack (`"" in s` is true). -/
theorem listContainsSub_nil_left (l : List Char) : listContainsSub [] l = true := by
  cases l <;> simp [listContainsSub, listIsPfx]

/-- Python `"" in s` is always true. -/
theorem strContains_empty_left (s : String) : strContains "" s = true :=
  listContainsSub_nil_left s.data

/-- When the primary phase of `gen_filename_completions` yields something,
the fallback adds nothing. -/
theorem genFilenameCompletions_primary (word : String) (filenames : List String)
    (primary : List String)
    (hp : (if word.isEmpty then filenames.filter (fun f => !(isHiddenFile f))
           else filenames.filter (fun f => strStartsWith f word)) = primary)
    (hne : primary ≠ []) :
    genFilenameCompletions word filenames = primary := by
  unfold genFilenameCompletions
  rw [hp]
  have hb : primary.isEmpty = false := by
    cases hb : primary.isEmpty with
    | false => rfl
    | true => exact absurd (List.isEmpty_iff.mp hb) hne
  simp [hb]

/-! ## Claims C3, C4, C10: the filename generator -/

/-- C3, counterexample: for fragment `"an"` and entries `["banana"]` the
generator yields `["banana"]`, which is not the set of entries starting
with the fragment (that set is empty): the substring fallback fires. -/
theorem C3_counterexample :
    genFilenameCompletions "an" ["banana"] = ["banana"]
    ∧ List.filter (fun f => strStartsWith f "an") ["banana"] = [] := by
  constructor <;> rfl

/-- C3, amended: provided the phase's own filter keeps at least one entry,
the filename generator yields exactly the entries that start with a
non-empty fragment, and exactly the non-hidden entries for an empty
fragment (otherwise the substring fallback of C4 takes over). -/
theorem C3_primary_prefix_policy :
    ∀ (word : String) (filenames : List String),
      (word.isEmpty = false →
        filenames.filter (fun f => strStartsWith f word) ≠ [] →
        genFilenameCompletions word filenames
          = filenames.filter (fun f => strStartsWith f word))
      ∧ (word.isEmpty = true →
        filenames.filter (fun f => !(isHiddenFile f)) ≠ [] →
        genFilenameCompletions word filenames
          = filenames.filter (fun f => !(isHiddenFile f))) := by
  intro word filenames
  constructor
  · intro hw hne
    exact genFilenameCompletions_primary word filenames _ (by rw [hw]; simp) hne
  · intro hw hne
    exact genFilenameCompletions_primary word filenames _ (by rw [hw]; simp) hne

/-- When the primary phase of `gen_filename_completions` keeps nothing, the
output is the substring fallback's. -/
theorem genFilenameCompletions_fb (word : String) (filenames : List String)
    (h : (if word.isEmpty then filenames.filter (fun f => !(isHiddenFile f))
          else filenames.filter (fun f => strStartsWith f word)) = []) :
    genFilenameCompletions word filenames
      = filenames.filter (fun f => strContains word f) := by
  unfold genFilenameCompletions
  rw [h]
  simp

/-- C4: when the primary phase keeps nothing, the generator yields exactly
the entries containing the fragment as a substring — with no hidden-file
exclusion in this fallback phase. -/
theorem C4_substring_fallback :
    ∀ (word : String) (filenames : List String),
      (if word.isEmpty then filenames.filter (fun f => !(isHiddenFile f))
       else filenames.filter (fun f => strStartsWith f word)) = [] →
      genFilenameCompletions word filenames
        = filenames.filter (fun f => strContains word f) :=
  fun word filenames h => genFilenameCompletions_fb word filenames h

/-- C4, witness: entries `{apple, banana, grape}` with fragment `an`: the
prefix phase is empty and the fallback yields exactly `["banana"]`. -/
theorem C4_substring_fallback_witness :
    genFilenameCompletions "an" ["apple", "banana", "grape"]
      = List.filter (fun f => strContains "an" f) ["apple", "banana", "grape"]
    ∧ genFilenameCompletions "an" ["apple", "banana", "grape"] = ["banana"] :=
  ⟨C4_substring_fallback "an" ["apple", "banana", "grape"] (by decide), by decide⟩

/-- C10: with an empty fragment and only hidden entries, the primary phase
yields nothing, the fallback fires, and — the empty fragment being a
substring of every name — every entry, hidden ones included, is yielded. -/
theorem C10_all_hidden_fallback :
    ∀ (filenames : List String),
      (∀ f ∈ filenames, isHiddenFile f = true) →
      genFilenameCompletions "" filenames = filenames := by
  intro filenames h
  have h1 : filenames.filter (fun f => !(isHiddenFile f)) = [] := by
    rw [List.filter_eq_nil_iff]
    intro f hf
    simp [h f hf]
  have h2 : filenames.filter (fun f => strContains "" f) = filenames := by
    rw [List.filter_eq_self]
    intro f _
    exact strContains_empty_left f
  have hc : ("".isEmpty : Bool) = true := by decide
  rw [genFilenameCompletions_fb "" filenames (by rw [hc]; simpa using h1), h2]

/-- C10, witness: a listing of only dotfiles is yielded whole on an empty
fragment. -/
theorem C10_all_hidden_fallback_witness :
    genFilenameCompletions "" [".profile", ".bashrc"] = [".profile", ".bashrc"] :=
  C10_all_hidden_fallback [".profile", ".bashrc"] (by decide)

/-! ## Claims C1, C2: error propagation through the orchestrator -/

/-- C1: the source's comment says it defends `get_matches` against bad
exclude patterns by returning `None`, but the `try` block only constructs
the lazy generator; with the invalid pattern `"("` and one candidate the
`re.error` escapes (`Except.error`), and `get_matches` can in fact never
return `None`: every run either raises or returns a list. -/
theorem C1_malformed_pattern_escapes :
    getMatches ⟨[], true, ["("], []⟩ ⟨fun _ => some ["main.c"], fun _ => false, []⟩ "ma"
      = Except.error ()
    ∧ ∀ (C : Completer) (fs : FS) (w : String),
        getMatches C fs w = Except.error ()
        ∨ ∃ l, getMatches C fs w = Except.ok (some l) := by
  refine ⟨by rfl, ?_⟩
  intro C fs w
  cases hg : genMatches C fs w with
  | error e =>
    cases e
    exact Or.inl (by simp only [getMatches, hg])
  | ok ms =>
    cases he : excludeMatchesE C.exclude_patterns ms with
    | error e =>
      cases e
      exact Or.inl (by simp only [getMatches, hg, he])
    | ok survivors =>
      exact Or.inr ⟨if C.use_suffix then survivors.map (fun m => inflect fs m)
                    else survivors, by simp only [getMatches, hg, he]⟩

/-- C2, counterexample: with a directory that cannot be listed (`os.listdir`
raises an `OSError`), `gen_matches` and `get_matches` do not return
normally: the exception propagates out of both. -/
theorem C2_counterexample :
    genMatches ⟨[], true, [], []⟩ ⟨fun _ => none, fun _ => false, []⟩ "fo"
      = Except.error ()
    ∧ getMatches ⟨[], true, [], []⟩ ⟨fun _ => none, fun _ => false, []⟩ "fo"
      = Except.error () := by
  exact ⟨rfl, rfl⟩

/-- C2, amended: for every non-`$`-prefixed word whose directory component
cannot be listed, the filesystem generator contributes zero candidates only
because the `OSError` from the unprotected `os.listdir` call propagates out
of `gen_matches`, and hence out of `get_matches`; neither returns
normally. -/
theorem C2_listdir_error_propagates :
    ∀ (C : Completer) (fs : FS) (word : String),
      strStartsWith word "$" = false →
      fs.listdir (listdirArg word) = none →
      genMatches C fs word = Except.error ()
      ∧ getMatches C fs word = Except.error () := by
  intro C fs word hw hl
  have hg : genMatches C fs word = Except.error () := by
    unfold genMatches
    simp [hw, hl]
  refine ⟨hg, ?_⟩
  unfold getMatches
  rw [hg]

/-- C2, witness: the amended claim at the word `sub/fo` over a filesystem
whose every directory listing fails. -/
theorem C2_listdir_error_propagates_witness :
    genMatches ⟨[], true, [], []⟩ ⟨fun _ => none, fun _ => true, ["HOME"]⟩ "sub/fo"
      = Except.error ()
    ∧ getMatches ⟨[], true, [], []⟩ ⟨fun _ => none, fun _ => true, ["HOME"]⟩ "sub/fo"
      = Except.error () :=
  C2_listdir_error_propagates ⟨[], true, [], []⟩ ⟨fun _ => none, fun _ => true, ["HOME"]⟩
    "sub/fo" (by decide) rfl

/-! ## Claim C6: the exclusion filter -/

/-- Python `re.match(p, m) is not None` for a pattern that compiles; `false`
for one that does not. -/
def patternMatches (p m : String) : Bool :=
  match reMatchStr p m with
  | some b => b
  | none => false

/-- With patterns that all compile, the inner loop of `exclude_matches`
reports whether any pattern matches the candidate. -/
theorem matchAnyPattern_valid (pats : List String) (m : String)
    (h : ∀ p ∈ pats, (compileChars p.data).isSome = true) :
    matchAnyPattern pats m = Except.ok (pats.any (fun p => patternMatches p m)) := by
  induction pats with
  | nil => rfl
  | cons p rest ih =>
    obtain ⟨q, hq⟩ := Option.isSome_iff_exists.mp (h p (List.mem_cons_self p rest))
    have hm : reMatchStr p m = some (patMatch q m.data) := by
      unfold reMatchStr
      rw [hq]
      rfl
    unfold matchAnyPattern
    rw [hm]
    cases hb : patMatch q m.data with
    | true =>
      have : patternMatches p m = true := by unfold patternMatches; rw [hm, hb]
      simp [this]
    | false =>
      have hpm : patternMatches p m = false := by unfold patternMatches; rw [hm, hb]
      rw [ih (fun p' hp' => h p' (List.mem_cons_of_mem p hp'))]
      simp [hpm]

/-- With patterns that all compile, `exclude_matches` keeps exactly the
candidates matched by no pattern, in order. -/
theorem excludeMatchesE_valid (pats : List String) (ms : List String)
    (h : ∀ p ∈ pats, (compileChars p.data).isSome = true) :
    excludeMatchesE pats ms
      = Except.ok (ms.filter (fun m => !(pats.any (fun p => patternMatches p m)))) := by
  induction ms with
  | nil => rfl
  | cons m rest ih =>
    unfold excludeMatchesE
    rw [matchAnyPattern_valid pats m h, ih]
    cases hb : pats.any (fun p => patternMatches p m) <;> simp [List.filter_cons, hb]

/-- C6: the exclusion filter drops a candidate at the first matching rule —
later rules, even invalid ones, are not consulted — and, when every rule
compiles, keeps exactly the candidates matched by no rule, preserving their
order. -/
theorem C6_exclusion_filter :
    ∀ (pats ms : List String),
      (∀ p ∈ pats, (compileChars p.data).isSome = true) →
      excludeMatchesE pats ms
        = Except.ok (ms.filter (fun m => !(pats.any (fun p => patternMatches p m))))
      ∧ ∀ (p : String) (rest : List String) (m : String),
          reMatchStr p m = some true →
          matchAnyPattern (p :: rest) m = Except.ok true := by
  intro pats ms h
  refine ⟨excludeMatchesE_valid pats ms h, ?_⟩
  intro p rest m hm
  unfold matchAnyPattern
  rw [hm]

/-- C6, witness: patterns `[".*~", ".*\.o"]` on the entries
`{main.c, main.c~, main.o, README}` keep exactly `{main.c, README}`. -/
theorem C6_exclusion_filter_witness :
    excludeMatchesE [".*~", ".*\\.o"] ["main.c", "main.c~", "main.o", "README"]
      = Except.ok (List.filter
          (fun m => !(List.any [".*~", ".*\\.o"] (fun p => patternMatches p m)))
          ["main.c", "main.c~", "main.o", "README"])
    ∧ excludeMatchesE [".*~", ".*\\.o"] ["main.c", "main.c~", "main.o", "README"]
      = Except.ok ["main.c", "README"] :=
  ⟨(C6_exclusion_filter [".*~", ".*\\.o"] ["main.c", "main.c~", "main.o", "README"]
      (by decide)).1, by rfl⟩

/-! ## Claim C7: variable completion dispatch -/

/-- C7: for a `$`-word, `gen_matches` yields exactly the `"$" + k` for the
environment names `k` that start with the word minus its sigil (plus the
extension generators' output), and consults the filesystem not at all: the
result is unchanged under a filesystem whose every listing fails. -/
theorem C7_variable_dispatch :
    ∀ (C : Completer) (fs : FS) (word : String),
      strStartsWith word "$" = true →
      genMatches C fs word
        = Except.ok ((fs.env.filter
              (fun k => strStartsWith k (String.mk (word.data.drop 1)))).map
              (fun k => "$" ++ k)
            ++ C.extensions.foldr (fun g acc => g word ++ acc) [])
      ∧ genMatches C ⟨fun _ => none, fs.isdir, fs.env⟩ word = genMatches C fs word := by
  intro C fs word h
  constructor
  · unfold genMatches
    simp [h, genVariableCompletions]
  · unfold genMatches
    simp [h]

/-- C7, witness: completing `$HO` against an environment containing `HOME`,
`HOSTNAME` and `PATH` yields `$HOME` and `$HOSTNAME`, sigil preserved, even
though every directory listing fails. -/
theorem C7_variable_dispatch_witness :
    genMatches ⟨[], true, [], []⟩ ⟨fun _ => none, fun _ => false, ["HOME", "HOSTNAME", "PATH"]⟩
        "$HO"
      = Except.ok ["$HOME", "$HOSTNAME"] := by
  rw [(C7_variable_dispatch ⟨[], true, [], []⟩
        ⟨fun _ => none, fun _ => false, ["HOME", "HOSTNAME", "PATH"]⟩ "$HO" (by decide)).1]
  rfl

/-! ## Claim C5: the state protocol of `complete` -/

/-- C5: for a word with exactly `k ≥ 1` matches (after the forward
transform), `complete(word, k-1)` returns the last match transformed back,
and `complete(word, s)` for every `s ≥ k` returns `none`, the protocol's
termination signal, without raising. -/
theorem C5_state_exhaustion :
    ∀ (C : Completer) (fs : FS) (word : String) (k : Nat) (ms : List String),
      getMatches C fs (transformForward C.transforms word) = Except.ok (some ms) →
      ms.length = k →
      1 ≤ k →
      complete C fs word (k - 1)
        = Except.ok (ms.getLast?.map (fun m => transformInverse C.transforms m))
      ∧ ∀ s, k ≤ s → complete C fs word s = Except.ok none := by
  intro C fs word k ms hm hlen hk
  constructor
  · have hlt : k - 1 < ms.length := by omega
    have hget : ms.get? (k - 1) = some (ms.get ⟨k - 1, hlt⟩) := List.get?_eq_get hlt
    have hlast : ms.getLast? = some (ms.get ⟨k - 1, hlt⟩) := by
      rw [List.getLast?_eq_get?, show ms.length - 1 = k - 1 from by omega]
      exact hget
    simp only [complete, hm, hget, hlast, Option.map_some']
  · intro s hs
    have hnone : ms.get? s = none := List.get?_eq_none.mpr (by omega)
    simp only [complete, hm, hnone]

/-- C5, witness: the word `foo` with exactly three matches; state 2 returns
the last match `foonly`, state 3 returns the termination signal. -/
theorem C5_state_exhaustion_witness :
    complete ⟨[], false, [], []⟩
        ⟨fun _ => some ["food", "foo", "foonly"], fun _ => false, []⟩ "foo" 2
      = Except.ok ((["food", "foo", "foonly"].getLast?).map
          (fun m => transformInverse [] m))
    ∧ complete ⟨[], false, [], []⟩
        ⟨fun _ => some ["food", "foo", "foonly"], fun _ => false, []⟩ "foo" 3
      = Except.ok none := by
  have h := C5_state_exhaustion ⟨[], false, [], []⟩
      ⟨fun _ => some ["food", "foo", "foonly"], fun _ => false, []⟩ "foo" 3
      ["food", "foo", "foonly"] rfl rfl (by omega)
  exact ⟨h.1, h.2 3 le_rfl⟩

/-! ## Claim C8: the inflector and the suffix toggle -/

/-- Every space in the escaped characters is immediately preceded by a
backslash: wherever the output splits as `pre ++ ' ' :: post`, `pre` ends
in `'\\'`. -/
theorem escChars_space_preceded (l : List Char) :
    ∀ (pre post : List Char), escChars l = pre ++ ' ' :: post →
      pre.getLast? = some '\\' := by
  induction l with
  | nil =>
    intro pre post h
    simp [escChars] at h
  | cons c cs ih =>
    intro pre post h
    by_cases hc : c = ' '
    · subst hc
      rw [show escChars (' ' :: cs) = '\\' :: ' ' :: escChars cs from by
        simp [escChars]] at h
      cases pre with
      | nil => simp at h
      | cons p0 pre1 =>
        simp only [List.cons_append, List.cons.injEq] at h
        obtain ⟨hp0, h1⟩ := h
        cases pre1 with
        | nil => simp [← hp0]
        | cons p1 pre2 =>
          simp only [List.cons_append, List.cons.injEq] at h1
          obtain ⟨_, h2⟩ := h1
          have hl := ih pre2 post h2
          cases pre2 with
          | nil => simp at hl
          | cons q qs => rw [List.getLast?_cons_cons, List.getLast?_cons_cons]; exact hl
    · rw [show escChars (c :: cs) = c :: escChars cs from by simp [escChars, hc]] at h
      cases pre with
      | nil =>
        simp only [List.nil_append, List.cons.injEq] at h
        exact absurd h.1 hc
      | cons p0 pre1 =>
        simp only [List.cons_append, List.cons.injEq] at h
        have hl := ih pre1 post h.2
        cases pre1 with
        | nil => simp at hl
        | cons q qs => rw [List.getLast?_cons_cons]; exact hl

/-- C8: `inflect` appends `/` for a directory and a single space otherwise,
after escaping the name portion (so the appended suffix is not escaped);
every space in the escaped name portion is immediately preceded by a
backslash; and with the suffix toggle disabled, `get_matches` returns the
surviving candidates unsuffixed and unescaped. -/
theorem C8_inflect_escape_toggle :
    ∀ (fs : FS) (name : String),
      inflect fs name = escape name ++ (if fs.isdir name then "/" else " ")
      ∧ (∀ pre post : List Char,
          (escape name).data = pre ++ ' ' :: post → pre.getLast? = some '\\')
      ∧ ∀ (C : Completer) (word : String) (ms sv : List String),
          C.use_suffix = false →
          genMatches C fs word = Except.ok ms →
          excludeMatchesE C.exclude_patterns ms = Except.ok sv →
          getMatches C fs word = Except.ok (some sv) := by
  intro fs name
  refine ⟨rfl, ?_, ?_⟩
  · intro pre post h
    exact escChars_space_preceded name.data pre post h
  · intro C word ms sv hs hg he
    simp only [getMatches, hg, he, hs]
    simp

/-! ## Claim C9: the transform round-trip law -/

/-- When every transform of the pipeline inverts its forward function, the
whole pipeline applied forward and then backward (in reverse traversal
order) is the identity. -/
theorem transform_round_trip (ts : List Transform)
    (h : ∀ t ∈ ts, ∀ s, t.inverse (t.forward s) = s) (w : String) :
    transformInverse ts (transformForward ts w) = w := by
  induction ts generalizing w with
  | nil => rfl
  | cons t rest ih =>
    have hf : transformForward (t :: rest) w = transformForward rest (t.forward w) := rfl
    have hi : ∀ s, transformInverse (t :: rest) s = t.inverse (transformInverse rest s) := by
      intro s
      unfold transformInverse
      rw [List.reverse_cons, List.foldl_append]
      rfl
    rw [hf, hi, ih (fun u hu => h u (List.mem_cons_of_mem t hu)) (t.forward w),
        h t (List.mem_cons_self t rest) w]

/-- C9: for any pipeline whose transforms each satisfy
`inverse (forward x) = x`, the round-trip law holds, and consequently
`complete` — which matches on the transformed word and un-transforms the
selected match — hands back the match in the user's original surface
syntax. -/
theorem C9_round_trip :
    ∀ (ts : List Transform) (w : String),
      (∀ t ∈ ts, ∀ s, t.inverse (t.forward s) = s) →
      transformInverse ts (transformForward ts w) = w
      ∧ ∀ (C : Completer) (fs : FS) (state : Nat) (ms : List String) (u : String),
          C.transforms = ts →
          getMatches C fs (transformForward ts w) = Except.ok (some ms) →
          ms.get? state = some (transformForward ts u) →
          complete C fs w state = Except.ok (some u) := by
  intro ts w h
  refine ⟨transform_round_trip ts h w, ?_⟩
  intro C fs state ms u hC hm hs
  simp only [complete, hC, hm, hs]
  rw [transform_round_trip ts h u]

/-- A sample invertible transform: prepend `X` going forward, drop the
first character going backward. -/
def sampleTransform : Transform :=
  ⟨fun s => "X" ++ s, fun s => String.mk (s.data.drop 1)⟩

/-- C9, witness: with the sample pipeline, the round-trip law holds on
`ab`, and completing `ab` against a directory holding `Xabc` returns `abc`
— the matched entry re-contracted to the user's surface syntax. -/
theorem C9_round_trip_witness :
    transformInverse [sampleTransform] (transformForward [sampleTransform] "ab") = "ab"
    ∧ complete ⟨[sampleTransform], false, [], []⟩
        ⟨fun _ => some ["Xabc"], fun _ => false, []⟩ "ab" 0
      = Except.ok (some "abc") := by
  have hinv : ∀ t ∈ [sampleTransform], ∀ s, t.inverse (t.forward s) = s := by
    intro t ht s
    simp only [List.mem_singleton] at ht
    subst ht
    cases s with
    | mk l => rfl
  have h := C9_round_trip [sampleTransform] "ab" hinv
  exact ⟨h.1, h.2 ⟨[sampleTransform], false, [], []⟩
    ⟨fun _ => some ["Xabc"], fun _ => false, []⟩ 0 ["Xabc"] "abc" rfl rfl rfl⟩

end Twosheds
